import Mathlib

/-!
Verification of the greedy rostering engine
(`src/solver2/src/solvers/greedy_engine.py`, class `GreedyPlanner`).

The Python source is shallowly embedded below.  Python `int` becomes `Int`
(`Nat` where the value is a list length), Python `str` becomes `String`,
Python `float` arithmetic on the coverage rate becomes exact `ℚ`
arithmetic, Python dicts become association lists looked up on the first
matching key (Python dicts have unique keys, so first-match lookup agrees
with dict lookup), and Python sets used only for membership tests become
lists queried with `contains`.  A `dict[...] += 1` on a missing key raises
`KeyError`; the embedding of that operation is `Option`-valued and the
whole solver returns `Option RosteringResult`, `none` marking the only
possible runtime failure points.  `datetime.now()` appears twice
(timestamp and elapsed-time measurement); both values are parameters of
`solveAt`.  Python's `list.sort(key=...)` is a stable ascending sort; a
stable sort is uniquely determined by its key, so it is embedded as the
structurally recursive stable insertion sort `stableSortBy`.
-/

/-- Bottleneck severity levels (`SeverityLevel` enum). -/
inductive SeverityLevel where
  | CRITICAL
  | HIGH
  | MEDIUM
  | LOW
deriving DecidableEq, Repr

/-- Single slot requirement (`RosteringRequirement` dataclass). -/
structure RosteringRequirement where
  date : String
  dagdeel : String
  service_id : String
  required_count : Int
  team : String := ""
deriving DecidableEq, Repr

/-- What an employee can do (`EmployeeCapability` dataclass).
`capable_services` is the Python dict `service_id -> bool` as an
association list; `available_dates` is the Python set of dates as a list
of its elements. -/
structure EmployeeCapability where
  employee_id : String
  voornaam : String
  achternaam : String
  capable_services : List (String × Bool) := []
  available_dates : List String := []
  team : String := ""
  max_shifts_per_week : Int := 40
  current_shifts : Int := 0
deriving DecidableEq, Repr

/-- Pre-planned assignment (`FixedAssignment` dataclass). -/
structure FixedAssignment where
  employee_id : String
  date : String
  dagdeel : String
  service_id : String
  reason : String := "pre-planned"
deriving DecidableEq, Repr

/-- Employee unavailable (`BlockedSlot` dataclass). -/
structure BlockedSlot where
  employee_id : String
  date : String
  dagdeel : String
  reason : String := "sick"
deriving DecidableEq, Repr

/-- Single shift assignment (`Assignment` dataclass). -/
structure Assignment where
  assignment_id : String
  employee_id : String
  date : String
  dagdeel : String
  service_id : String
  source : String := "greedy"
  is_locked : Bool := false
deriving DecidableEq, Repr

/-- Cannot fill a slot (`Bottleneck` dataclass).  `shortage` and
`severity` are derived in `__post_init__`; the smart constructor
`mkBottleneck` below performs that derivation. -/
structure Bottleneck where
  date : String
  dagdeel : String
  service_id : String
  required_count : Int
  placed_count : Int
  shortage : Int
  severity : SeverityLevel
  reason : String
  suggestions : List String
deriving DecidableEq, Repr

/-- `Bottleneck.__post_init__`: `shortage = required_count - placed_count`;
severity defaults to MEDIUM, is CRITICAL when `shortage >= 2` and HIGH when
`shortage == 1`. -/
def mkBottleneck (date dagdeel service_id : String)
    (required_count placed_count : Int) : Bottleneck :=
  let shortage := required_count - placed_count
  { date := date
    dagdeel := dagdeel
    service_id := service_id
    required_count := required_count
    placed_count := placed_count
    shortage := shortage
    severity :=
      if shortage ≥ 2 then SeverityLevel.CRITICAL
      else if shortage = 1 then SeverityLevel.HIGH
      else SeverityLevel.MEDIUM
    reason := ""
    suggestions := [] }

/-- Complete result of greedy rostering (`RosteringResult` dataclass). -/
structure RosteringResult where
  roster : List Assignment
  bottlenecks : List Bottleneck
  coverage_rate : ℚ
  total_slots : Nat
  assigned_slots : Int
  solve_time_seconds : ℚ
  timestamp : String
  version : String := "2.0.0-DRAAD194"
deriving DecidableEq, Repr

/-- Python `capable_services.get(service_id, False)`: first-match lookup in
the association list, defaulting to `false`. -/
def dictGetBool (d : List (String × Bool)) (k : String) : Bool :=
  match d.find? (fun p => p.1 == k) with
  | some p => p.2
  | none => false

/-- The running per-employee assignment tally (`assignment_count` dict). -/
abbrev Counts : Type := List (String × Nat)

/-- Python `assignment_count.get(e, 0)`. -/
def getCount (c : Counts) (k : String) : Nat :=
  match List.find? (fun p => p.1 == k) c with
  | some p => p.2
  | none => 0

/-- Python `assignment_count[k] += 1`: `none` when the key is absent
(a `KeyError` in Python). -/
def incr : Counts → String → Option Counts
  | [], _ => none
  | (k, v) :: rest, key =>
    if k == key then some ((k, v + 1) :: rest)
    else (incr rest key).map (fun c => (k, v) :: c)

/-- Python `{emp.employee_id: 0 for emp in employees}`.  Duplicate ids give
shadowed entries that neither `getCount` nor `incr` ever touches, so the
association list behaves exactly like the deduplicated dict. -/
def initCounts (employees : List EmployeeCapability) : Counts :=
  employees.map (fun e => (e.employee_id, 0))

/-- `GreedyPlanner._build_blocked_set`: the set of
`(employee_id, date, dagdeel)` tuples, as the list of its members. -/
def buildBlockedSet (blocked_slots : List BlockedSlot) :
    List (String × String × String) :=
  blocked_slots.map (fun b => (b.employee_id, b.date, b.dagdeel))

/-- Membership test `(employee_id, date, dagdeel) in blocked_set`. -/
def inBlocked (bset : List (String × String × String))
    (employee_id date dagdeel : String) : Bool :=
  bset.contains (employee_id, date, dagdeel)

/-- `GreedyPlanner._is_valid_assignment`: not blocked, employee found in
the list, and capable of the service. -/
def isValidAssignment (employee_id date dagdeel service_id : String)
    (employees : List EmployeeCapability)
    (bset : List (String × String × String)) : Bool :=
  if inBlocked bset employee_id date dagdeel then false
  else
    match employees.find? (fun e => e.employee_id == employee_id) with
    | none => false
    | some emp => dictGetBool emp.capable_services service_id

/-- `GreedyPlanner._find_eligible_employees`: team filter (only when the
filter string is non-empty), capability, not blocked, and not already
holding an assignment with the same `(employee_id, date, dagdeel)` in the
roster built so far. -/
def findEligibleEmployees (date dagdeel service_id : String)
    (employees : List EmployeeCapability) (roster : List Assignment)
    (bset : List (String × String × String))
    (team_filter : String) : List EmployeeCapability :=
  employees.filter (fun emp =>
    (team_filter == "" || emp.team == team_filter) &&
    dictGetBool emp.capable_services service_id &&
    !(inBlocked bset emp.employee_id date dagdeel) &&
    !(roster.any (fun a =>
        a.employee_id == emp.employee_id &&
        a.date == date && a.dagdeel == dagdeel)))

/-- `GreedyPlanner._analyze_bottleneck_reason`.  The `eligible` parameter
is present in the Python signature but unused by the body. -/
def analyzeBottleneckReason (req : RosteringRequirement)
    (_eligible : List EmployeeCapability)
    (bset : List (String × String × String))
    (employees : List EmployeeCapability) : String :=
  let capable := employees.filter
    (fun e => dictGetBool e.capable_services req.service_id)
  if capable.isEmpty then "No employees capable of this service"
  else
    let available := capable.filter
      (fun e => !(inBlocked bset e.employee_id req.date req.dagdeel))
    if available.isEmpty then "All capable employees are blocked/unavailable"
    else "Insufficient eligible employees for this slot"

/-- `GreedyPlanner._suggest_solutions`. -/
def suggestSolutions (_req : RosteringRequirement) (b : Bottleneck) :
    List String :=
  (if b.shortage = 1 then ["Train 1 more employee in this service"]
   else if b.shortage > 1 then
     ["Train " ++ toString b.shortage ++ " more employees in this service"]
   else [])
  ++ ["Reduce requirement by " ++ toString b.shortage,
      "Check for scheduling conflicts"]

/-- Stable insertion into an ascending run built from the elements that
followed `a` in the input: `a` goes before the first element whose key is
`≥` its own, exactly where Python's stable sort keeps an element arriving
earlier in the input. -/
def insertByKey (key : EmployeeCapability → Nat) (a : EmployeeCapability) :
    List EmployeeCapability → List EmployeeCapability
  | [] => [a]
  | b :: bs =>
    if key b < key a then b :: insertByKey key a bs
    else a :: b :: bs

/-- Python `eligible.sort(key=lambda e: assignment_count.get(...))`: a
stable ascending sort by the key.  A stable sort is uniquely determined by
its key function, so this insertion sort computes the same list as
CPython's Timsort. -/
def stableSortBy (key : EmployeeCapability → Nat) :
    List EmployeeCapability → List EmployeeCapability
  | [] => []
  | a :: rest => insertByKey key a (stableSortBy key rest)

/-- Count of roster entries matching `(date, dagdeel, service_id)` — the
`current_count` list comprehension in `GreedyPlanner.solve`. -/
def countSlot (roster : List Assignment) (date dagdeel service_id : String) :
    Nat :=
  (roster.filter (fun a =>
    a.date == date && a.dagdeel == dagdeel && a.service_id == service_id)).length

/-- The locked assignment built from a valid `FixedAssignment` in FASE 1
of `GreedyPlanner.solve`. -/
def mkLockedAssignment (f : FixedAssignment) : Assignment :=
  { assignment_id := f.employee_id ++ "_" ++ f.date ++ "_" ++ f.dagdeel
    employee_id := f.employee_id
    date := f.date
    dagdeel := f.dagdeel
    service_id := f.service_id
    source := "pre-planned"
    is_locked := true }

/-- The greedy assignment committed for employee `emp` in FASE 2 of
`GreedyPlanner.solve`. -/
def mkGreedyAssignment (emp : EmployeeCapability)
    (req : RosteringRequirement) : Assignment :=
  { assignment_id := emp.employee_id ++ "_" ++ req.date ++ "_" ++
      req.dagdeel ++ "_" ++ req.service_id
    employee_id := emp.employee_id
    date := req.date
    dagdeel := req.dagdeel
    service_id := req.service_id
    source := "greedy"
    is_locked := false }

/-- FASE 1 loop body of `GreedyPlanner.solve` for one fixed assignment:
validate, and on success append the locked assignment and bump the tally. -/
def phase1Step (employees : List EmployeeCapability)
    (bset : List (String × String × String)) (f : FixedAssignment)
    (roster : List Assignment) (counts : Counts) :
    Option (List Assignment × Counts) :=
  if isValidAssignment f.employee_id f.date f.dagdeel f.service_id
      employees bset then
    match incr counts f.employee_id with
    | none => none
    | some counts' => some (roster ++ [mkLockedAssignment f], counts')
  else some (roster, counts)

/-- FASE 1 of `GreedyPlanner.solve`: fold `phase1Step` over the fixed
assignments in input order. -/
def phase1 (employees : List EmployeeCapability)
    (bset : List (String × String × String)) :
    List FixedAssignment → List Assignment → Counts →
    Option (List Assignment × Counts)
  | [], roster, counts => some (roster, counts)
  | f :: rest, roster, counts =>
    match phase1Step employees bset f roster counts with
    | none => none
    | some (roster', counts') => phase1 employees bset rest roster' counts'

/-- The inner `for emp in eligible` loop of FASE 2: commit employees from
the sorted candidate list until `assigned >= shortage` or the list ends,
appending an assignment and bumping the tally for each commit. -/
def commitLoop (req : RosteringRequirement) (shortage : Int) :
    List EmployeeCapability → Nat → List Assignment → Counts →
    Option (Nat × List Assignment × Counts)
  | [], assigned, roster, counts => some (assigned, roster, counts)
  | emp :: rest, assigned, roster, counts =>
    if (assigned : Int) ≥ shortage then some (assigned, roster, counts)
    else
      match incr counts emp.employee_id with
      | none => none
      | some counts' =>
        commitLoop req shortage rest (assigned + 1)
          (roster ++ [mkGreedyAssignment emp req]) counts'

/-- The `Bottleneck` raised in FASE 2 of `GreedyPlanner.solve` when only
`assigned` of the needed employees could be committed: built by the
`Bottleneck(...)` constructor call (placed = `current_count + assigned`),
then given its reason by `_analyze_bottleneck_reason` (called on the
sorted eligible list, computed from the pre-commit roster and tally) and
its suggestions by `_suggest_solutions`. -/
def phase2Bottleneck (employees : List EmployeeCapability)
    (bset : List (String × String × String)) (req : RosteringRequirement)
    (roster : List Assignment) (counts : Counts) (assigned : Nat) :
    Bottleneck :=
  let current := countSlot roster req.date req.dagdeel req.service_id
  let eligible := findEligibleEmployees req.date req.dagdeel req.service_id
    employees roster bset req.team
  let sorted := stableSortBy (fun e => getCount counts e.employee_id) eligible
  let bn0 := mkBottleneck req.date req.dagdeel req.service_id
    req.required_count ((current : Int) + (assigned : Int))
  { bn0 with
    reason := analyzeBottleneckReason req sorted bset employees
    suggestions := suggestSolutions req bn0 }

/-- FASE 2 loop body of `GreedyPlanner.solve` for one requirement: count
the slot, and when under-filled sort the eligible employees by tally,
commit up to the shortage, and raise a bottleneck when commits fell short. -/
def phase2Step (employees : List EmployeeCapability)
    (bset : List (String × String × String)) (req : RosteringRequirement)
    (roster : List Assignment) (counts : Counts)
    (bottlenecks : List Bottleneck) :
    Option (List Assignment × Counts × List Bottleneck) :=
  let current := countSlot roster req.date req.dagdeel req.service_id
  if (current : Int) < req.required_count then
    let shortage : Int := req.required_count - (current : Int)
    let eligible := findEligibleEmployees req.date req.dagdeel req.service_id
      employees roster bset req.team
    let sorted := stableSortBy (fun e => getCount counts e.employee_id) eligible
    match commitLoop req shortage sorted 0 roster counts with
    | none => none
    | some (assigned, roster', counts') =>
      if (assigned : Int) < shortage then
        some (roster', counts', bottlenecks ++
          [phase2Bottleneck employees bset req roster counts assigned])
      else some (roster', counts', bottlenecks)
  else some (roster, counts, bottlenecks)

/-- FASE 2 of `GreedyPlanner.solve`: fold `phase2Step` over the
requirements in input order. -/
def phase2 (employees : List EmployeeCapability)
    (bset : List (String × String × String)) :
    List RosteringRequirement → List Assignment → Counts →
    List Bottleneck →
    Option (List Assignment × Counts × List Bottleneck)
  | [], roster, counts, bottlenecks => some (roster, counts, bottlenecks)
  | req :: rest, roster, counts, bottlenecks =>
    match phase2Step employees bset req roster counts bottlenecks with
    | none => none
    | some (roster', counts', bottlenecks') =>
      phase2 employees bset rest roster' counts' bottlenecks'

/-- FASE 1 followed by FASE 2 of `GreedyPlanner.solve`, exposing the
internal state `(roster, assignment_count, bottlenecks)`. -/
def solveCore (requirements : List RosteringRequirement)
    (employees : List EmployeeCapability)
    (fixed_assignments : List FixedAssignment)
    (blocked_slots : List BlockedSlot) :
    Option (List Assignment × Counts × List Bottleneck) :=
  let bset := buildBlockedSet blocked_slots
  match phase1 employees bset fixed_assignments [] (initCounts employees) with
  | none => none
  | some (roster, counts) =>
    phase2 employees bset requirements roster counts []

/-- The metric block of `GreedyPlanner.solve`:
`total_slots = len(requirements)`,
`assigned_slots = #{b : shortage b = 0} + (total_slots - #bottlenecks)`,
`coverage_rate = assigned_slots / total_slots * 100` when
`total_slots > 0` else `0`. -/
def buildResult (requirements : List RosteringRequirement)
    (roster : List Assignment) (bottlenecks : List Bottleneck)
    (timestamp : String) (solve_time_seconds : ℚ) : RosteringResult :=
  let total_slots := requirements.length
  let assigned_slots : Int :=
    ((bottlenecks.filter (fun b => b.shortage == 0)).length : Int) +
      ((total_slots : Int) - (bottlenecks.length : Int))
  { roster := roster
    bottlenecks := bottlenecks
    coverage_rate :=
      if total_slots > 0 then
        (assigned_slots : ℚ) / (total_slots : ℚ) * 100
      else 0
    total_slots := total_slots
    assigned_slots := assigned_slots
    solve_time_seconds := solve_time_seconds
    timestamp := timestamp }

/-- `GreedyPlanner.solve`.  `timestamp` and `solve_time_seconds` stand for
the two `datetime.now()`-derived values the Python code stores in the
result. -/
def solveAt (timestamp : String) (solve_time_seconds : ℚ)
    (requirements : List RosteringRequirement)
    (employees : List EmployeeCapability)
    (fixed_assignments : List FixedAssignment)
    (blocked_slots : List BlockedSlot) : Option RosteringResult :=
  (solveCore requirements employees fixed_assignments blocked_slots).map
    (fun out => buildResult requirements out.1 out.2.2
      timestamp solve_time_seconds)

/-- `GreedyPlanner.solve` together with the employee list as it stands
after the call.  No statement anywhere in `GreedyPlanner` assigns to an
attribute of an `EmployeeCapability` (the tally lives in the separate
`assignment_count` dict), so the post-solve employee list is the input
list unchanged. -/
def solveFull (timestamp : String) (solve_time_seconds : ℚ)
    (requirements : List RosteringRequirement)
    (employees : List EmployeeCapability)
    (fixed_assignments : List FixedAssignment)
    (blocked_slots : List BlockedSlot) :
    Option (RosteringResult × List EmployeeCapability) :=
  (solveAt timestamp solve_time_seconds requirements employees
    fixed_assignments blocked_slots).map (fun r => (r, employees))

/-- The `(employee_id, date, dagdeel)` triple of an assignment. -/
def tripleOf (a : Assignment) : String × String × String :=
  (a.employee_id, a.date, a.dagdeel)

/-- The `(employee_id, date, dagdeel)` triple of a fixed assignment. -/
def ftriple (f : FixedAssignment) : String × String × String :=
  (f.employee_id, f.date, f.dagdeel)

/-- The properties every bottleneck appended in FASE 2 satisfies: strictly
positive shortage, shortage derived as `required_count - placed_count`,
and the reason produced by `_analyze_bottleneck_reason` for its slot. -/
def GoodBn (employees : List EmployeeCapability)
    (bset : List (String × String × String)) (b : Bottleneck) : Prop :=
  0 < b.shortage ∧
  b.shortage = b.required_count - b.placed_count ∧
  b.reason = analyzeBottleneckReason
    { date := b.date, dagdeel := b.dagdeel, service_id := b.service_id,
      required_count := b.required_count } [] bset employees

/-- Every field of a `RosteringResult` except the two wall-clock dependent
ones, `timestamp` and `solve_time_seconds`. -/
def stripTimes (r : RosteringResult) :
    List Assignment × List Bottleneck × ℚ × Nat × Int × String :=
  (r.roster, r.bottlenecks, r.coverage_rate, r.total_slots,
    r.assigned_slots, r.version)

/-- An employee record with the three fields the solver never reads
(`available_dates`, `max_shifts_per_week`, `current_shifts`) replaced by
degenerate values. -/
def scrubPlanningFields (e : EmployeeCapability) : EmployeeCapability :=
  { e with
    available_dates := []
    max_shifts_per_week := 0
    current_shifts := 0 }

/-- Concrete worker: capable of service "s", zero available dates and a
weekly cap of zero shifts. -/
def empA : EmployeeCapability :=
  { employee_id := "w1", voornaam := "Ann", achternaam := "A",
    capable_services := [("s", true)], available_dates := [],
    team := "", max_shifts_per_week := 0, current_shifts := 0 }

/-- Concrete worker capable of service "s". -/
def empB : EmployeeCapability :=
  { employee_id := "w2", voornaam := "Bob", achternaam := "B",
    capable_services := [("s", true)] }

/-- Concrete worker capable of service "s". -/
def empC : EmployeeCapability :=
  { employee_id := "w3", voornaam := "Cas", achternaam := "C",
    capable_services := [("s", true)] }

/-- Concrete requirement: one worker for service "s" on the morning of
2024-01-01. -/
def reqA : RosteringRequirement :=
  { date := "2024-01-01", dagdeel := "ochtend", service_id := "s",
    required_count := 1 }

/-- Concrete requirement: two workers for service "s" on the morning of
2024-01-01. -/
def reqB : RosteringRequirement :=
  { date := "2024-01-01", dagdeel := "ochtend", service_id := "s",
    required_count := 2 }

/-- Concrete fixed assignment for worker "w2" on the slot of `reqA`. -/
def fixB : FixedAssignment :=
  { employee_id := "w2", date := "2024-01-01", dagdeel := "ochtend",
    service_id := "s" }

/-- Concrete fixed assignment for worker "w3" on the slot of `reqA`. -/
def fixC : FixedAssignment :=
  { employee_id := "w3", date := "2024-01-01", dagdeel := "ochtend",
    service_id := "s" }

/-- The bottleneck the engine reports for `reqA` when no worker exists. -/
def bnA : Bottleneck :=
  { date := "2024-01-01", dagdeel := "ochtend", service_id := "s",
    required_count := 1, placed_count := 0, shortage := 1,
    severity := SeverityLevel.HIGH,
    reason := "No employees capable of this service",
    suggestions := ["Train 1 more employee in this service",
      "Reduce requirement by 1", "Check for scheduling conflicts"] }

/-! ### Lemmas about the tally (`assignment_count`) -/

theorem incr_some_of_mem {c : Counts} {k : String}
    (h : k ∈ c.map Prod.fst) : ∃ c', incr c k = some c' := by
  induction c with
  | nil => simp at h
  | cons p rest ih =>
    obtain ⟨a, v⟩ := p
    by_cases hak : a = k
    · exact ⟨(a, v + 1) :: rest, by simp [incr, hak]⟩
    · have hmem : k ∈ rest.map Prod.fst := by
        simp only [List.map_cons, List.mem_cons] at h
        exact h.resolve_left (fun hk => hak hk.symm)
      obtain ⟨c', hc'⟩ := ih hmem
      exact ⟨(a, v) :: c', by simp [incr, hak, hc']⟩

theorem getCount_cons (a : String) (v : Nat) (rest : Counts) (k : String) :
    getCount ((a, v) :: rest) k = if a = k then v else getCount rest k := by
  by_cases hak : a = k
  · rw [getCount, List.find?_cons_of_pos _ (by simp [hak]), if_pos hak]
  · rw [getCount, List.find?_cons_of_neg _ (by simp [hak]), if_neg hak]
    rfl

theorem incr_keys {c c' : Counts} {k : String}
    (h : incr c k = some c') : c'.map Prod.fst = c.map Prod.fst := by
  induction c generalizing c' with
  | nil => simp [incr] at h
  | cons p rest ih =>
    obtain ⟨a, v⟩ := p
    by_cases hak : a = k
    · subst hak
      simp [incr] at h
      simp [← h]
    · simp only [incr, beq_iff_eq, hak, if_false, Option.map_eq_some'] at h
      obtain ⟨c'', hc'', heq⟩ := h
      subst heq
      simp [ih hc'']

theorem getCount_incr_self {c c' : Counts} {k : String}
    (h : incr c k = some c') : getCount c' k = getCount c k + 1 := by
  induction c generalizing c' with
  | nil => simp [incr] at h
  | cons p rest ih =>
    obtain ⟨a, v⟩ := p
    by_cases hak : a = k
    · subst hak
      simp [incr] at h
      rw [← h, getCount_cons, getCount_cons, if_pos rfl, if_pos rfl]
    · simp only [incr, beq_iff_eq, hak, if_false, Option.map_eq_some'] at h
      obtain ⟨c'', hc'', heq⟩ := h
      subst heq
      rw [getCount_cons, getCount_cons, if_neg hak, if_neg hak, ih hc'']

theorem getCount_incr_other {c c' : Counts} {k k' : String}
    (h : incr c k = some c') (hne : k' ≠ k) :
    getCount c' k' = getCount c k' := by
  induction c generalizing c' with
  | nil => simp [incr] at h
  | cons p rest ih =>
    obtain ⟨a, v⟩ := p
    by_cases hak : a = k
    · subst hak
      simp [incr] at h
      rw [← h, getCount_cons, getCount_cons, if_neg (fun hh => hne hh.symm),
        if_neg (fun hh => hne hh.symm)]
    · simp only [incr, beq_iff_eq, hak, if_false, Option.map_eq_some'] at h
      obtain ⟨c'', hc'', heq⟩ := h
      subst heq
      rw [getCount_cons, getCount_cons, ih hc'']

theorem getCount_initCounts (employees : List EmployeeCapability)
    (k : String) : getCount (initCounts employees) k = 0 := by
  induction employees with
  | nil => simp [initCounts, getCount]
  | cons e rest ih =>
    show getCount ((e.employee_id, 0) :: initCounts rest) k = 0
    rw [getCount_cons]
    by_cases hek : e.employee_id = k
    · simp [hek]
    · simpa [hek] using ih

/-! ### Lemmas about the stable sort -/

theorem insertByKey_perm (key : EmployeeCapability → Nat)
    (a : EmployeeCapability) (l : List EmployeeCapability) :
    (insertByKey key a l).Perm (a :: l) := by
  induction l with
  | nil => simp [insertByKey]
  | cons b bs ih =>
    by_cases hb : key b < key a
    · simp only [insertByKey, hb, if_true]
      exact (ih.cons b).trans (List.Perm.swap a b bs)
    · simp [insertByKey, hb]

theorem stableSortBy_perm (key : EmployeeCapability → Nat)
    (l : List EmployeeCapability) : (stableSortBy key l).Perm l := by
  induction l with
  | nil => simp [stableSortBy]
  | cons a rest ih =>
    exact (insertByKey_perm key a (stableSortBy key rest)).trans (ih.cons a)

theorem mem_stableSortBy {key : EmployeeCapability → Nat}
    {l : List EmployeeCapability} {e : EmployeeCapability}
    (h : e ∈ stableSortBy key l) : e ∈ l :=
  (stableSortBy_perm key l).mem_iff.mp h

/-! ### Lemmas about slot counting -/

theorem countSlot_append (r₁ r₂ : List Assignment) (d dg s : String) :
    countSlot (r₁ ++ r₂) d dg s = countSlot r₁ d dg s + countSlot r₂ d dg s := by
  simp [countSlot, List.filter_append]

theorem countSlot_eq_zero {l : List Assignment} {d dg s : String}
    (h : ∀ a ∈ l, ¬(a.date = d ∧ a.dagdeel = dg ∧ a.service_id = s)) :
    countSlot l d dg s = 0 := by
  simp only [countSlot, List.length_eq_zero, List.filter_eq_nil_iff]
  intro a ha
  simpa using h a ha

theorem countSlot_le_length (l : List Assignment) (d dg s : String) :
    countSlot l d dg s ≤ l.length :=
  List.length_filter_le _ l

/-! ### Lemmas about the commit loop (the inner `for emp in eligible`) -/

theorem commitLoop_spec (req : RosteringRequirement) (shortage : Int) :
    ∀ (lst : List EmployeeCapability) (assigned : Nat)
      (roster : List Assignment) (counts : Counts)
      (out : Nat × List Assignment × Counts),
    commitLoop req shortage lst assigned roster counts = some out →
    ∃ k, k ≤ lst.length ∧ out.1 = assigned + k ∧
      out.2.1 = roster ++
        (lst.take k).map (fun e => mkGreedyAssignment e req) ∧
      ((assigned : Int) ≤ shortage → (out.1 : Int) ≤ shortage)
  | [], assigned, roster, counts, out, h => by
    simp only [commitLoop, Option.some.injEq] at h
    exact ⟨0, by simp [← h]⟩
  | emp :: rest, assigned, roster, counts, out, h => by
    rw [commitLoop] at h
    by_cases hge : (assigned : Int) ≥ shortage
    · rw [if_pos hge] at h
      simp only [Option.some.injEq] at h
      subst h
      exact ⟨0, by simp, by simp, by simp, fun hle => by simpa using hle⟩
    · rw [if_neg hge] at h
      cases hinc : incr counts emp.employee_id with
      | none => rw [hinc] at h; exact absurd h (by simp)
      | some counts' =>
        rw [hinc] at h
        obtain ⟨k, hk, hout1, hout2, hbound⟩ :=
          commitLoop_spec req shortage rest (assigned + 1)
            (roster ++ [mkGreedyAssignment emp req]) counts' out h
        refine ⟨k + 1, by simpa using hk, by omega, ?_, ?_⟩
        · rw [hout2]
          simp [List.take_succ_cons]
        · intro _
          refine hbound ?_
          push_cast
          omega

theorem commitLoop_keys (req : RosteringRequirement) (shortage : Int) :
    ∀ (lst : List EmployeeCapability) (assigned : Nat)
      (roster : List Assignment) (counts : Counts)
      (out : Nat × List Assignment × Counts),
    commitLoop req shortage lst assigned roster counts = some out →
    out.2.2.map Prod.fst = counts.map Prod.fst
  | [], assigned, roster, counts, out, h => by
    simp only [commitLoop, Option.some.injEq] at h
    simp [← h]
  | emp :: rest, assigned, roster, counts, out, h => by
    rw [commitLoop] at h
    by_cases hge : (assigned : Int) ≥ shortage
    · rw [if_pos hge] at h
      simp only [Option.some.injEq] at h
      subst h
      rfl
    · rw [if_neg hge] at h
      cases hinc : incr counts emp.employee_id with
      | none => rw [hinc] at h; exact absurd h (by simp)
      | some counts' =>
        rw [hinc] at h
        rw [commitLoop_keys req shortage rest (assigned + 1)
          (roster ++ [mkGreedyAssignment emp req]) counts' out h]
        exact incr_keys hinc

theorem commitLoop_isSome (req : RosteringRequirement) (shortage : Int) :
    ∀ (lst : List EmployeeCapability) (assigned : Nat)
      (roster : List Assignment) (counts : Counts),
    (∀ e ∈ lst, e.employee_id ∈ counts.map Prod.fst) →
    (commitLoop req shortage lst assigned roster counts).isSome
  | [], assigned, roster, counts, _ => by simp [commitLoop]
  | emp :: rest, assigned, roster, counts, hk => by
    rw [commitLoop]
    by_cases hge : (assigned : Int) ≥ shortage
    · simp [if_pos hge]
    · rw [if_neg hge]
      obtain ⟨counts', hinc⟩ :=
        incr_some_of_mem (hk emp (List.mem_cons_self emp rest))
      rw [hinc]
      exact commitLoop_isSome req shortage rest (assigned + 1)
        (roster ++ [mkGreedyAssignment emp req]) counts'
        (fun e he => incr_keys hinc ▸ hk e (List.mem_cons_of_mem emp he))

theorem commitLoop_counts (req : RosteringRequirement) (shortage : Int) :
    ∀ (lst : List EmployeeCapability) (assigned : Nat)
      (roster : List Assignment) (counts : Counts)
      (out : Nat × List Assignment × Counts),
    commitLoop req shortage lst assigned roster counts = some out →
    (∀ id, getCount counts id =
      (roster.filter (fun a => a.employee_id == id)).length) →
    ∀ id, getCount out.2.2 id =
      (out.2.1.filter (fun a => a.employee_id == id)).length
  | [], assigned, roster, counts, out, h, hc => by
    simp only [commitLoop, Option.some.injEq] at h
    simp [← h, hc]
  | emp :: rest, assigned, roster, counts, out, h, hc => by
    rw [commitLoop] at h
    by_cases hge : (assigned : Int) ≥ shortage
    · rw [if_pos hge] at h
      simp only [Option.some.injEq] at h
      simp [← h, hc]
    · rw [if_neg hge] at h
      cases hinc : incr counts emp.employee_id with
      | none => rw [hinc] at h; exact absurd h (by simp)
      | some counts' =>
        rw [hinc] at h
        refine commitLoop_counts req shortage rest (assigned + 1)
          (roster ++ [mkGreedyAssignment emp req]) counts' out h ?_
        intro id
        rw [List.filter_append, List.length_append]
        by_cases hid : id = emp.employee_id
        · subst hid
          rw [getCount_incr_self hinc, hc]
          simp [mkGreedyAssignment]
        · rw [getCount_incr_other hinc hid, hc]
          simp [mkGreedyAssignment, Ne.symm hid]

/-! ### Bridges between the boolean filters and propositional facts -/

theorem mem_of_eligible {date dagdeel service_id team : String}
    {employees : List EmployeeCapability} {roster : List Assignment}
    {bset : List (String × String × String)} {e : EmployeeCapability}
    (h : e ∈ findEligibleEmployees date dagdeel service_id employees roster
      bset team) : e ∈ employees :=
  (List.mem_filter.mp h).1

theorem eligible_not_assigned {date dagdeel service_id team : String}
    {employees : List EmployeeCapability} {roster : List Assignment}
    {bset : List (String × String × String)} {e : EmployeeCapability}
    (h : e ∈ findEligibleEmployees date dagdeel service_id employees roster
      bset team) : (e.employee_id, date, dagdeel) ∉ roster.map tripleOf := by
  have hp := (List.mem_filter.mp h).2
  simp only [Bool.and_eq_true, Bool.not_eq_true'] at hp
  intro hmem
  obtain ⟨a, ha, htrip⟩ := List.mem_map.mp hmem
  have hany : roster.any (fun a =>
      a.employee_id == e.employee_id &&
      a.date == date && a.dagdeel == dagdeel) = true := by
    refine List.any_eq_true.mpr ⟨a, ha, ?_⟩
    have h1 : a.employee_id = e.employee_id := congrArg Prod.fst htrip
    have h2 : a.date = date := congrArg (Prod.fst ∘ Prod.snd) htrip
    have h3 : a.dagdeel = dagdeel := congrArg (Prod.snd ∘ Prod.snd) htrip
    simp [h1, h2, h3]
  rw [hp.2] at hany
  exact Bool.false_ne_true hany

theorem mem_ids_of_valid {employee_id date dagdeel service_id : String}
    {employees : List EmployeeCapability}
    {bset : List (String × String × String)}
    (h : isValidAssignment employee_id date dagdeel service_id employees
      bset = true) : employee_id ∈ employees.map (·.employee_id) := by
  rw [isValidAssignment] at h
  split at h
  · exact absurd h (by simp)
  · split at h
    · exact absurd h (by simp)
    · next emp hfind =>
      exact List.mem_map.mpr ⟨emp, List.mem_of_find?_eq_some hfind,
        by simpa using List.find?_some hfind⟩

/-! ### Lemmas about FASE 1 -/

theorem phase1Step_cases {employees : List EmployeeCapability}
    {bset : List (String × String × String)} {f : FixedAssignment}
    {roster : List Assignment} {counts : Counts}
    {out : List Assignment × Counts}
    (h : phase1Step employees bset f roster counts = some out) :
    out = (roster, counts) ∨
      (isValidAssignment f.employee_id f.date f.dagdeel f.service_id
        employees bset = true ∧
       ∃ counts', incr counts f.employee_id = some counts' ∧
         out = (roster ++ [mkLockedAssignment f], counts')) := by
  rw [phase1Step] at h
  split at h
  · next hvalid =>
    cases hinc : incr counts f.employee_id with
    | none => rw [hinc] at h; exact absurd h (by simp)
    | some counts' =>
      rw [hinc] at h
      simp only [Option.some.injEq] at h
      exact Or.inr ⟨hvalid, counts', rfl, h.symm⟩
  · simp only [Option.some.injEq] at h
    exact Or.inl h.symm

theorem phase1_fold (employees : List EmployeeCapability)
    (bset : List (String × String × String))
    (P : List Assignment × Counts → Prop) :
    ∀ (fs : List FixedAssignment) (roster : List Assignment)
      (counts : Counts) (out : List Assignment × Counts),
    (∀ f ∈ fs, ∀ st out', P st →
      phase1Step employees bset f st.1 st.2 = some out' → P out') →
    phase1 employees bset fs roster counts = some out →
    P (roster, counts) → P out
  | [], roster, counts, out, _, h, hP => by
    simp only [phase1, Option.some.injEq] at h
    exact h ▸ hP
  | f :: rest, roster, counts, out, hstep, h, hP => by
    rw [phase1] at h
    cases hs : phase1Step employees bset f roster counts with
    | none => rw [hs] at h; exact absurd h (by simp)
    | some st' =>
      rw [hs] at h
      exact phase1_fold employees bset P rest st'.1 st'.2 out
        (fun g hg => hstep g (List.mem_cons_of_mem f hg)) h
        (hstep f (List.mem_cons_self f rest) (roster, counts) st' hP hs)

theorem phase1_isSome (employees : List EmployeeCapability)
    (bset : List (String × String × String)) :
    ∀ (fs : List FixedAssignment) (roster : List Assignment)
      (counts : Counts),
    (∀ e ∈ employees, e.employee_id ∈ counts.map Prod.fst) →
    (phase1 employees bset fs roster counts).isSome
  | [], roster, counts, _ => by simp [phase1]
  | f :: rest, roster, counts, hk => by
    rw [phase1]
    have hkeys : ∀ st', phase1Step employees bset f roster counts = some st' →
        st'.2.map Prod.fst = counts.map Prod.fst := by
      intro st' hs
      rcases phase1Step_cases hs with h1 | ⟨_, counts', hinc, h2⟩
      · rw [h1]
      · rw [h2]
        exact incr_keys hinc
    cases hs : phase1Step employees bset f roster counts with
    | none =>
      exfalso
      rw [phase1Step] at hs
      split at hs
      · next hvalid =>
        have hmem : f.employee_id ∈ counts.map Prod.fst := by
          obtain ⟨e, he, heq⟩ := List.mem_map.mp (mem_ids_of_valid hvalid)
          exact heq ▸ hk e he
        obtain ⟨counts', hinc⟩ := incr_some_of_mem hmem
        rw [hinc] at hs
        exact Option.noConfusion hs
      · exact Option.noConfusion hs
    | some st' =>
      exact phase1_isSome employees bset rest st'.1 st'.2
        (fun e he => (hkeys st' hs) ▸ hk e he)

theorem phase1_nodup (employees : List EmployeeCapability)
    (bset : List (String × String × String)) :
    ∀ (fs : List FixedAssignment) (roster : List Assignment)
      (counts : Counts) (out : List Assignment × Counts),
    (roster.map tripleOf).Nodup →
    (∀ f ∈ fs, ftriple f ∉ roster.map tripleOf) →
    (fs.map ftriple).Nodup →
    phase1 employees bset fs roster counts = some out →
    (out.1.map tripleOf).Nodup
  | [], roster, counts, out, hn, _, _, h => by
    simp only [phase1, Option.some.injEq] at h
    rw [← h]
    exact hn
  | f :: rest, roster, counts, out, hn, hdisj, hpair, h => by
    rw [phase1] at h
    cases hs : phase1Step employees bset f roster counts with
    | none => rw [hs] at h; exact absurd h (by simp)
    | some st' =>
      rw [hs] at h
      have hfr : ∀ g ∈ rest, ftriple g ≠ ftriple f := by
        intro g hg hEq
        have : ftriple f ∈ rest.map ftriple := hEq ▸ List.mem_map_of_mem ftriple hg
        exact (List.nodup_cons.mp hpair).1 this
      rcases phase1Step_cases hs with h1 | ⟨_, counts', hinc, h2⟩
      · subst h1
        exact phase1_nodup employees bset rest roster counts out hn
          (fun g hg => hdisj g (List.mem_cons_of_mem f hg))
          (List.nodup_cons.mp hpair).2 h
      · subst h2
        refine phase1_nodup employees bset rest _ _ out ?_ ?_
          (List.nodup_cons.mp hpair).2 h
        · rw [List.map_append]
          refine hn.append (by simp) ?_
          intro t ht
          simp only [List.map_cons, List.map_nil, List.mem_singleton]
          intro hEq
          have : tripleOf (mkLockedAssignment f) ∈ List.map tripleOf roster :=
            hEq ▸ ht
          exact hdisj f (List.mem_cons_self f rest) this
        · intro g hg
          rw [List.map_append]
          simp only [List.mem_append, List.map_cons, List.map_nil,
            List.mem_singleton]
          rintro (hmem | hEq)
          · exact hdisj g (List.mem_cons_of_mem f hg) hmem
          · exact hfr g hg hEq

theorem phase1_shape (employees : List EmployeeCapability)
    (bset : List (String × String × String)) :
    ∀ (fs : List FixedAssignment) (roster : List Assignment)
      (counts : Counts) (out : List Assignment × Counts),
    phase1 employees bset fs roster counts = some out →
    ∃ news, out.1 = roster ++ news ∧
      ∀ a ∈ news, ∃ f ∈ fs,
        isValidAssignment f.employee_id f.date f.dagdeel f.service_id
          employees bset = true ∧ a = mkLockedAssignment f
  | [], roster, counts, out, h => by
    simp only [phase1, Option.some.injEq] at h
    exact ⟨[], by simp [← h], by simp⟩
  | f :: rest, roster, counts, out, h => by
    rw [phase1] at h
    cases hs : phase1Step employees bset f roster counts with
    | none => rw [hs] at h; exact absurd h (by simp)
    | some st' =>
      rw [hs] at h
      obtain ⟨news, hout, hnews⟩ :=
        phase1_shape employees bset rest st'.1 st'.2 out h
      rcases phase1Step_cases hs with h1 | ⟨hvalid, counts', hinc, h2⟩
      · rw [h1] at hout
        exact ⟨news, hout, fun a ha =>
          (hnews a ha).elim (fun g hg =>
            ⟨g, List.mem_cons_of_mem f hg.1, hg.2⟩)⟩
      · rw [h2] at hout
        refine ⟨mkLockedAssignment f :: news, by simpa using hout, ?_⟩
        intro a ha
        rcases List.mem_cons.mp ha with rfl | ha'
        · exact ⟨f, List.mem_cons_self f rest, hvalid, rfl⟩
        · obtain ⟨g, hg, hgv, hga⟩ := hnews a ha'
          exact ⟨g, List.mem_cons_of_mem f hg, hgv, hga⟩

/-! ### Lemmas about FASE 2 -/

theorem phase2Step_cases {employees : List EmployeeCapability}
    {bset : List (String × String × String)} {req : RosteringRequirement}
    {roster : List Assignment} {counts : Counts} {bns : List Bottleneck}
    {out : List Assignment × Counts × List Bottleneck}
    (h : phase2Step employees bset req roster counts bns = some out) :
    (¬((countSlot roster req.date req.dagdeel req.service_id : Int) <
        req.required_count) ∧ out = (roster, counts, bns)) ∨
    ∃ assigned roster' counts',
      (countSlot roster req.date req.dagdeel req.service_id : Int) <
        req.required_count ∧
      commitLoop req
        (req.required_count -
          (countSlot roster req.date req.dagdeel req.service_id : Int))
        (stableSortBy (fun e => getCount counts e.employee_id)
          (findEligibleEmployees req.date req.dagdeel req.service_id
            employees roster bset req.team))
        0 roster counts = some (assigned, roster', counts') ∧
      (((assigned : Int) < req.required_count -
          (countSlot roster req.date req.dagdeel req.service_id : Int) ∧
        out = (roster', counts',
          bns ++ [phase2Bottleneck employees bset req roster counts assigned])) ∨
       (¬((assigned : Int) < req.required_count -
          (countSlot roster req.date req.dagdeel req.service_id : Int)) ∧
        out = (roster', counts', bns))) := by
  simp only [phase2Step] at h
  split at h
  · next hlt =>
    split at h
    · exact absurd h (by simp)
    · next assigned roster' counts' heq =>
      split at h
      · next hshort =>
        simp only [Option.some.injEq] at h
        exact Or.inr ⟨assigned, roster', counts', hlt, heq,
          Or.inl ⟨hshort, h.symm⟩⟩
      · next hshort =>
        simp only [Option.some.injEq] at h
        exact Or.inr ⟨assigned, roster', counts', hlt, heq,
          Or.inr ⟨hshort, h.symm⟩⟩
  · next hlt =>
    simp only [Option.some.injEq] at h
    exact Or.inl ⟨hlt, h.symm⟩

theorem phase2Step_roster {employees : List EmployeeCapability}
    {bset : List (String × String × String)} {req : RosteringRequirement}
    {roster : List Assignment} {counts : Counts} {bns : List Bottleneck}
    {out : List Assignment × Counts × List Bottleneck}
    (h : phase2Step employees bset req roster counts bns = some out) :
    ∃ news, out.1 = roster ++ news ∧
      ∀ a ∈ news, ∃ e ∈ findEligibleEmployees req.date req.dagdeel
        req.service_id employees roster bset req.team,
        a = mkGreedyAssignment e req := by
  rcases phase2Step_cases h with ⟨_, rfl⟩ |
    ⟨assigned, roster', counts', hlt, hcl, hout⟩
  · exact ⟨[], by simp, by simp⟩
  · obtain ⟨k, hk, h1, h2, hb⟩ :=
      commitLoop_spec _ _ _ _ _ _ (assigned, roster', counts') hcl
    have hcases : out.1 = roster' := by
      rcases hout with ⟨_, rfl⟩ | ⟨_, rfl⟩ <;> rfl
    refine ⟨_, by rw [hcases]; exact h2, ?_⟩
    intro a ha
    obtain ⟨e, he, rfl⟩ := List.mem_map.mp ha
    exact ⟨e, mem_stableSortBy (List.take_subset k _ he), rfl⟩

theorem phase2Step_nodup {employees : List EmployeeCapability}
    {bset : List (String × String × String)} {req : RosteringRequirement}
    {roster : List Assignment} {counts : Counts} {bns : List Bottleneck}
    {out : List Assignment × Counts × List Bottleneck}
    (hemp : (employees.map (fun e => e.employee_id)).Nodup)
    (hn : (roster.map tripleOf).Nodup)
    (h : phase2Step employees bset req roster counts bns = some out) :
    (out.1.map tripleOf).Nodup := by
  rcases phase2Step_cases h with ⟨_, rfl⟩ |
    ⟨assigned, roster', counts', hlt, hcl, hout⟩
  · exact hn
  · obtain ⟨k, hk, h1, h2, hb⟩ :=
      commitLoop_spec _ _ _ _ _ _ (assigned, roster', counts') hcl
    dsimp only at h1 h2 hb
    have hcases : out.1 = roster' := by
      rcases hout with ⟨_, rfl⟩ | ⟨_, rfl⟩ <;> rfl
    rw [hcases, h2, List.map_append]
    have helig : ((findEligibleEmployees req.date req.dagdeel req.service_id
        employees roster bset req.team).map (fun e => e.employee_id)).Nodup :=
      (List.Sublist.map _ (List.filter_sublist employees)).nodup hemp
    have hsorted : ((stableSortBy (fun e => getCount counts e.employee_id)
        (findEligibleEmployees req.date req.dagdeel req.service_id employees
          roster bset req.team)).map (fun e => e.employee_id)).Nodup :=
      ((stableSortBy_perm _ _).symm.map _).nodup helig
    have htake := (List.Sublist.map
      (fun e : EmployeeCapability => e.employee_id)
      (List.take_sublist k _)).nodup hsorted
    refine hn.append ?_ ?_
    · have hinj : Function.Injective
          (fun i : String => (i, req.date, req.dagdeel)) := by
        intro a b hab
        exact (Prod.ext_iff.mp hab).1
      have : (((stableSortBy (fun e => getCount counts e.employee_id)
          (findEligibleEmployees req.date req.dagdeel req.service_id employees
            roster bset req.team)).take k).map
            (fun e => mkGreedyAssignment e req)).map tripleOf =
          (((stableSortBy (fun e => getCount counts e.employee_id)
          (findEligibleEmployees req.date req.dagdeel req.service_id employees
            roster bset req.team)).take k).map (fun e => e.employee_id)).map
            (fun i => (i, req.date, req.dagdeel)) := by
        simp only [List.map_map]
        rfl
      rw [this]
      exact htake.map hinj
    · intro t ht htr
      obtain ⟨a, ha, rfl⟩ := List.mem_map.mp htr
      obtain ⟨e, he, rfl⟩ := List.mem_map.mp ha
      exact eligible_not_assigned
        (mem_stableSortBy (List.take_subset k _ he)) (by exact ht)

theorem phase2Step_count {employees : List EmployeeCapability}
    {bset : List (String × String × String)} {req : RosteringRequirement}
    {roster : List Assignment} {counts : Counts} {bns : List Bottleneck}
    {out : List Assignment × Counts × List Bottleneck}
    {d dg s : String} {B : Int}
    (hcur : (countSlot roster d dg s : Int) ≤ B)
    (hreq : req.date = d → req.dagdeel = dg → req.service_id = s →
      req.required_count ≤ B)
    (h : phase2Step employees bset req roster counts bns = some out) :
    (countSlot out.1 d dg s : Int) ≤ B := by
  obtain ⟨news, hout, hnews⟩ := phase2Step_roster h
  by_cases htrip : req.date = d ∧ req.dagdeel = dg ∧ req.service_id = s
  · obtain ⟨hd, hdg, hs⟩ := htrip
    subst hd; subst hdg; subst hs
    rcases phase2Step_cases h with ⟨_, rfl⟩ |
      ⟨assigned, roster', counts', hlt, hcl, hcases⟩
    · exact hcur
    · obtain ⟨k, hk, h1, h2, hb⟩ :=
        commitLoop_spec _ _ _ _ _ _ (assigned, roster', counts') hcl
      dsimp only at h1 h2 hb
      have hout1 : out.1 = roster' := by
        rcases hcases with ⟨_, rfl⟩ | ⟨_, rfl⟩ <;> rfl
      have hbound : (assigned : Int) ≤
          req.required_count -
            (countSlot roster req.date req.dagdeel req.service_id : Int) := by
        refine hb ?_
        simp only [Nat.cast_zero]
        omega
      have hlen : countSlot ((stableSortBy
          (fun e => getCount counts e.employee_id)
          (findEligibleEmployees req.date req.dagdeel req.service_id employees
            roster bset req.team)).take k |>.map
            (fun e => mkGreedyAssignment e req))
          req.date req.dagdeel req.service_id ≤ k := by
        calc countSlot _ req.date req.dagdeel req.service_id
            ≤ _ := countSlot_le_length _ _ _ _
          _ ≤ k := by
              rw [List.length_map]
              exact List.length_take_le k _
      rw [hout1, h2, countSlot_append]
      have hreq' := hreq rfl rfl rfl
      push_cast
      have hk' : k = assigned := by omega
      subst hk'
      omega
  · have hzero : countSlot news d dg s = 0 := by
      refine countSlot_eq_zero ?_
      intro a ha hcon
      obtain ⟨e, he, rfl⟩ := hnews a ha
      exact htrip ⟨hcon.1, hcon.2.1, hcon.2.2⟩
    rw [hout, countSlot_append, hzero]
    simpa using hcur

theorem analyze_congr (req req' : RosteringRequirement)
    (e e' : List EmployeeCapability)
    (bset : List (String × String × String))
    (employees : List EmployeeCapability)
    (h1 : req.date = req'.date) (h2 : req.dagdeel = req'.dagdeel)
    (h3 : req.service_id = req'.service_id) :
    analyzeBottleneckReason req e bset employees =
      analyzeBottleneckReason req' e' bset employees := by
  simp only [analyzeBottleneckReason, h1, h2, h3]

theorem phase2Bottleneck_good {employees : List EmployeeCapability}
    {bset : List (String × String × String)} {req : RosteringRequirement}
    {roster : List Assignment} {counts : Counts} {assigned : Nat}
    (hshort : (assigned : Int) < req.required_count -
      (countSlot roster req.date req.dagdeel req.service_id : Int)) :
    GoodBn employees bset
      (phase2Bottleneck employees bset req roster counts assigned) := by
  refine ⟨?_, rfl, ?_⟩
  · show 0 < req.required_count -
      ((countSlot roster req.date req.dagdeel req.service_id : Int) +
        (assigned : Int))
    omega
  · show analyzeBottleneckReason req
      (stableSortBy (fun e => getCount counts e.employee_id)
        (findEligibleEmployees req.date req.dagdeel req.service_id
          employees roster bset req.team)) bset employees = _
    exact analyze_congr req _ _ [] bset employees rfl rfl rfl

theorem phase2Step_bns {employees : List EmployeeCapability}
    {bset : List (String × String × String)} {req : RosteringRequirement}
    {roster : List Assignment} {counts : Counts} {bns : List Bottleneck}
    {out : List Assignment × Counts × List Bottleneck}
    (hb : ∀ b ∈ bns, GoodBn employees bset b)
    (h : phase2Step employees bset req roster counts bns = some out) :
    ∀ b ∈ out.2.2, GoodBn employees bset b := by
  rcases phase2Step_cases h with ⟨_, rfl⟩ |
    ⟨assigned, roster', counts', hlt, hcl, hout⟩
  · exact hb
  · rcases hout with ⟨hshort, rfl⟩ | ⟨_, rfl⟩
    · intro b hbmem
      rcases List.mem_append.mp hbmem with hmem | hmem
      · exact hb b hmem
      · rw [List.mem_singleton.mp hmem]
        exact phase2Bottleneck_good hshort
    · exact hb

theorem phase2Step_keys {employees : List EmployeeCapability}
    {bset : List (String × String × String)} {req : RosteringRequirement}
    {roster : List Assignment} {counts : Counts} {bns : List Bottleneck}
    {out : List Assignment × Counts × List Bottleneck}
    (h : phase2Step employees bset req roster counts bns = some out) :
    out.2.1.map Prod.fst = counts.map Prod.fst := by
  rcases phase2Step_cases h with ⟨_, rfl⟩ |
    ⟨assigned, roster', counts', hlt, hcl, hout⟩
  · rfl
  · have := commitLoop_keys _ _ _ _ _ _ (assigned, roster', counts') hcl
    dsimp only at this
    rcases hout with ⟨_, rfl⟩ | ⟨_, rfl⟩ <;> exact this

theorem phase2Step_counts {employees : List EmployeeCapability}
    {bset : List (String × String × String)} {req : RosteringRequirement}
    {roster : List Assignment} {counts : Counts} {bns : List Bottleneck}
    {out : List Assignment × Counts × List Bottleneck}
    (hc : ∀ id, getCount counts id =
      (roster.filter (fun a => a.employee_id == id)).length)
    (h : phase2Step employees bset req roster counts bns = some out) :
    ∀ id, getCount out.2.1 id =
      (out.1.filter (fun a => a.employee_id == id)).length := by
  rcases phase2Step_cases h with ⟨_, rfl⟩ |
    ⟨assigned, roster', counts', hlt, hcl, hout⟩
  · exact hc
  · have := commitLoop_counts _ _ _ _ _ _ (assigned, roster', counts') hcl hc
    dsimp only at this
    rcases hout with ⟨_, rfl⟩ | ⟨_, rfl⟩ <;> exact this

theorem phase2Step_isSome {employees : List EmployeeCapability}
    {bset : List (String × String × String)} {req : RosteringRequirement}
    {roster : List Assignment} {counts : Counts} {bns : List Bottleneck}
    (hk : ∀ e ∈ employees, e.employee_id ∈ counts.map Prod.fst) :
    (phase2Step employees bset req roster counts bns).isSome := by
  simp only [phase2Step]
  split
  · next hlt =>
    have hsome : (commitLoop req
        (req.required_count -
          (countSlot roster req.date req.dagdeel req.service_id : Int))
        (stableSortBy (fun e => getCount counts e.employee_id)
          (findEligibleEmployees req.date req.dagdeel req.service_id
            employees roster bset req.team))
        0 roster counts).isSome := by
      refine commitLoop_isSome _ _ _ _ _ _ ?_
      intro e he
      exact hk e (mem_of_eligible (mem_stableSortBy he))
    cases hcl : commitLoop req
        (req.required_count -
          (countSlot roster req.date req.dagdeel req.service_id : Int))
        (stableSortBy (fun e => getCount counts e.employee_id)
          (findEligibleEmployees req.date req.dagdeel req.service_id
            employees roster bset req.team))
        0 roster counts with
    | none => rw [hcl] at hsome; exact absurd hsome (by simp)
    | some st =>
      obtain ⟨assigned, roster', counts'⟩ := st
      dsimp only
      split <;> simp
  · simp

theorem phase2_fold (employees : List EmployeeCapability)
    (bset : List (String × String × String))
    (P : List Assignment × Counts × List Bottleneck → Prop) :
    ∀ (rs : List RosteringRequirement) (roster : List Assignment)
      (counts : Counts) (bns : List Bottleneck)
      (out : List Assignment × Counts × List Bottleneck),
    (∀ req ∈ rs, ∀ st out', P st →
      phase2Step employees bset req st.1 st.2.1 st.2.2 = some out' →
      P out') →
    phase2 employees bset rs roster counts bns = some out →
    P (roster, counts, bns) → P out
  | [], roster, counts, bns, out, _, h, hP => by
    simp only [phase2, Option.some.injEq] at h
    exact h ▸ hP
  | req :: rest, roster, counts, bns, out, hstep, h, hP => by
    rw [phase2] at h
    cases hs : phase2Step employees bset req roster counts bns with
    | none => rw [hs] at h; exact absurd h (by simp)
    | some st' =>
      rw [hs] at h
      exact phase2_fold employees bset P rest st'.1 st'.2.1 st'.2.2 out
        (fun g hg => hstep g (List.mem_cons_of_mem req hg)) h
        (hstep req (List.mem_cons_self req rest) (roster, counts, bns)
          st' hP hs)

theorem phase2_isSome (employees : List EmployeeCapability)
    (bset : List (String × String × String)) :
    ∀ (rs : List RosteringRequirement) (roster : List Assignment)
      (counts : Counts) (bns : List Bottleneck),
    (∀ e ∈ employees, e.employee_id ∈ counts.map Prod.fst) →
    (phase2 employees bset rs roster counts bns).isSome
  | [], roster, counts, bns, _ => by simp [phase2]
  | req :: rest, roster, counts, bns, hk => by
    rw [phase2]
    cases hs : phase2Step employees bset req roster counts bns with
    | none =>
      have := @phase2Step_isSome employees bset req roster counts bns hk
      rw [hs] at this
      exact absurd this (by simp)
    | some st' =>
      exact phase2_isSome employees bset rest st'.1 st'.2.1 st'.2.2
        (fun e he => (phase2Step_keys hs) ▸ hk e he)

/-! ### Lemmas at the level of `solveCore` / `solveAt` -/

theorem initCounts_keys (employees : List EmployeeCapability) :
    (initCounts employees).map Prod.fst =
      employees.map (fun e => e.employee_id) := by
  simp only [initCounts, List.map_map]
  rfl

theorem phase1_keys {employees : List EmployeeCapability}
    {bset : List (String × String × String)} {fs : List FixedAssignment}
    {roster : List Assignment} {counts : Counts}
    {out : List Assignment × Counts}
    (h : phase1 employees bset fs roster counts = some out) :
    out.2.map Prod.fst = counts.map Prod.fst := by
  refine phase1_fold employees bset
    (fun st => st.2.map Prod.fst = counts.map Prod.fst) fs roster counts out
    ?_ h rfl
  intro f _ st out' hP hs
  rcases phase1Step_cases hs with h1 | ⟨_, counts', hinc, h2⟩
  · rw [h1]; exact hP
  · rw [h2]
    exact (incr_keys hinc).trans hP

theorem solveCore_cases {requirements : List RosteringRequirement}
    {employees : List EmployeeCapability}
    {fixed_assignments : List FixedAssignment}
    {blocked_slots : List BlockedSlot}
    {out : List Assignment × Counts × List Bottleneck}
    (h : solveCore requirements employees fixed_assignments blocked_slots =
      some out) :
    ∃ roster counts,
      phase1 employees (buildBlockedSet blocked_slots) fixed_assignments []
        (initCounts employees) = some (roster, counts) ∧
      phase2 employees (buildBlockedSet blocked_slots) requirements roster
        counts [] = some out := by
  simp only [solveCore] at h
  cases hp : phase1 employees (buildBlockedSet blocked_slots)
      fixed_assignments [] (initCounts employees) with
  | none => rw [hp] at h; exact absurd h (by simp)
  | some st =>
    obtain ⟨roster, counts⟩ := st
    rw [hp] at h
    exact ⟨roster, counts, rfl, h⟩

theorem solveCore_isSome (requirements : List RosteringRequirement)
    (employees : List EmployeeCapability)
    (fixed_assignments : List FixedAssignment)
    (blocked_slots : List BlockedSlot) :
    (solveCore requirements employees fixed_assignments
      blocked_slots).isSome := by
  have hk0 : ∀ e ∈ employees, e.employee_id ∈
      (initCounts employees).map Prod.fst := by
    intro e he
    rw [initCounts_keys]
    exact List.mem_map_of_mem _ he
  simp only [solveCore]
  cases hp : phase1 employees (buildBlockedSet blocked_slots)
      fixed_assignments [] (initCounts employees) with
  | none =>
    have := phase1_isSome employees (buildBlockedSet blocked_slots)
      fixed_assignments [] (initCounts employees) hk0
    rw [hp] at this
    exact absurd this (by simp)
  | some st =>
    obtain ⟨roster, counts⟩ := st
    have hkeys : counts.map Prod.fst = (initCounts employees).map Prod.fst :=
      phase1_keys hp
    exact phase2_isSome employees (buildBlockedSet blocked_slots)
      requirements roster counts []
      (fun e he => hkeys ▸ hk0 e he)

theorem solveCore_of_solveAt {timestamp : String} {solve_time_seconds : ℚ}
    {requirements : List RosteringRequirement}
    {employees : List EmployeeCapability}
    {fixed_assignments : List FixedAssignment}
    {blocked_slots : List BlockedSlot} {res : RosteringResult}
    (h : solveAt timestamp solve_time_seconds requirements employees
      fixed_assignments blocked_slots = some res) :
    ∃ out, solveCore requirements employees fixed_assignments blocked_slots =
      some out ∧
      res = buildResult requirements out.1 out.2.2 timestamp
        solve_time_seconds := by
  rw [solveAt] at h
  cases hc : solveCore requirements employees fixed_assignments
      blocked_slots with
  | none => rw [hc] at h; exact absurd h (by simp)
  | some out =>
    rw [hc] at h
    simp only [Option.map_some', Option.some.injEq] at h
    exact ⟨out, rfl, h.symm⟩

theorem solveCore_bns {requirements : List RosteringRequirement}
    {employees : List EmployeeCapability}
    {fixed_assignments : List FixedAssignment}
    {blocked_slots : List BlockedSlot}
    {out : List Assignment × Counts × List Bottleneck}
    (h : solveCore requirements employees fixed_assignments blocked_slots =
      some out) :
    ∀ b ∈ out.2.2, GoodBn employees (buildBlockedSet blocked_slots) b := by
  obtain ⟨roster, counts, hp, h2⟩ := solveCore_cases h
  exact phase2_fold employees (buildBlockedSet blocked_slots)
    (fun st => ∀ b ∈ st.2.2, GoodBn employees (buildBlockedSet blocked_slots) b)
    requirements roster counts [] out
    (fun req _ st out' hP hs => phase2Step_bns hP hs) h2 (by simp)

theorem solveCore_locked {requirements : List RosteringRequirement}
    {employees : List EmployeeCapability}
    {fixed_assignments : List FixedAssignment}
    {blocked_slots : List BlockedSlot}
    {out : List Assignment × Counts × List Bottleneck}
    (h : solveCore requirements employees fixed_assignments blocked_slots =
      some out) :
    ∀ a ∈ out.1, (a.is_locked = true ↔ a.source = "pre-planned") := by
  obtain ⟨roster, counts, hp, h2⟩ := solveCore_cases h
  have hbase : ∀ a ∈ roster, (a.is_locked = true ↔ a.source = "pre-planned") := by
    obtain ⟨news, hout, hnews⟩ :=
      phase1_shape employees (buildBlockedSet blocked_slots)
        fixed_assignments [] (initCounts employees) (roster, counts) hp
    intro a ha
    dsimp only at hout
    rw [hout] at ha
    obtain ⟨f, _, _, rfl⟩ := hnews a (by simpa using ha)
    simp [mkLockedAssignment]
  refine phase2_fold employees (buildBlockedSet blocked_slots)
    (fun st => ∀ a ∈ st.1, (a.is_locked = true ↔ a.source = "pre-planned"))
    requirements roster counts [] out ?_ h2 hbase
  intro req _ st out' hP hs
  obtain ⟨news, hout, hnews⟩ := phase2Step_roster hs
  intro a ha
  rw [hout] at ha
  rcases List.mem_append.mp ha with ha' | ha'
  · exact hP a ha'
  · obtain ⟨e, _, rfl⟩ := hnews a ha'
    simp [mkGreedyAssignment]

theorem solveCore_nodup {requirements : List RosteringRequirement}
    {employees : List EmployeeCapability}
    {fixed_assignments : List FixedAssignment}
    {blocked_slots : List BlockedSlot}
    {out : List Assignment × Counts × List Bottleneck}
    (hfix : (fixed_assignments.map ftriple).Nodup)
    (hemp : (employees.map (fun e => e.employee_id)).Nodup)
    (h : solveCore requirements employees fixed_assignments blocked_slots =
      some out) :
    (out.1.map tripleOf).Nodup := by
  obtain ⟨roster, counts, hp, h2⟩ := solveCore_cases h
  have hbase : (roster.map tripleOf).Nodup := by
    have := phase1_nodup employees (buildBlockedSet blocked_slots)
      fixed_assignments [] (initCounts employees) (roster, counts)
      (by simp) (by simp) hfix hp
    exact this
  exact phase2_fold employees (buildBlockedSet blocked_slots)
    (fun st => (st.1.map tripleOf).Nodup)
    requirements roster counts [] out
    (fun req _ st out' hP hs => phase2Step_nodup hemp hP hs) h2 hbase

theorem solveCore_counts {requirements : List RosteringRequirement}
    {employees : List EmployeeCapability}
    {fixed_assignments : List FixedAssignment}
    {blocked_slots : List BlockedSlot}
    {out : List Assignment × Counts × List Bottleneck}
    (h : solveCore requirements employees fixed_assignments blocked_slots =
      some out) :
    ∀ id, getCount out.2.1 id =
      (out.1.filter (fun a => a.employee_id == id)).length := by
  obtain ⟨roster, counts, hp, h2⟩ := solveCore_cases h
  have hbase : ∀ id, getCount counts id =
      (roster.filter (fun a => a.employee_id == id)).length := by
    refine phase1_fold employees (buildBlockedSet blocked_slots)
      (fun st => ∀ id, getCount st.2 id =
        (st.1.filter (fun a => a.employee_id == id)).length)
      fixed_assignments [] (initCounts employees) (roster, counts)
      ?_ hp ?_
    · intro f _ st out' hP hs
      rcases phase1Step_cases hs with h1 | ⟨_, counts', hinc, h2'⟩
      · rw [h1]; exact hP
      · rw [h2']
        intro id
        rw [List.filter_append, List.length_append]
        by_cases hid : id = f.employee_id
        · subst hid
          rw [getCount_incr_self hinc, hP]
          simp [mkLockedAssignment]
        · rw [getCount_incr_other hinc hid, hP]
          simp [mkLockedAssignment, Ne.symm hid]
    · intro id
      rw [getCount_initCounts]
      simp
  exact phase2_fold employees (buildBlockedSet blocked_slots)
    (fun st => ∀ id, getCount st.2.1 id =
      (st.1.filter (fun a => a.employee_id == id)).length)
    requirements roster counts [] out
    (fun req _ st out' hP hs => phase2Step_counts hP hs) h2 hbase

/-! ### The fields the filters never consult -/

theorem find_scrub (employees : List EmployeeCapability)
    (employee_id : String) :
    (employees.map scrubPlanningFields).find?
        (fun e => e.employee_id == employee_id) =
      (employees.find? (fun e => e.employee_id == employee_id)).map
        scrubPlanningFields := by
  induction employees with
  | nil => rfl
  | cons e rest ih =>
    by_cases h : e.employee_id = employee_id
    · rw [List.map_cons,
        List.find?_cons_of_pos _ (by simp [scrubPlanningFields, h]),
        List.find?_cons_of_pos _ (by simp [h])]
      rfl
    · rw [List.map_cons,
        List.find?_cons_of_neg _ (by simp [scrubPlanningFields, h]),
        List.find?_cons_of_neg _ (by simp [h]), ih]

theorem findEligible_scrub (date dagdeel service_id team : String)
    (employees : List EmployeeCapability) (roster : List Assignment)
    (bset : List (String × String × String)) :
    findEligibleEmployees date dagdeel service_id
        (employees.map scrubPlanningFields) roster bset team =
      (findEligibleEmployees date dagdeel service_id employees roster bset
        team).map scrubPlanningFields := by
  rw [findEligibleEmployees, findEligibleEmployees, List.filter_map]
  rfl

theorem isValid_scrub (employee_id date dagdeel service_id : String)
    (employees : List EmployeeCapability)
    (bset : List (String × String × String)) :
    isValidAssignment employee_id date dagdeel service_id
        (employees.map scrubPlanningFields) bset =
      isValidAssignment employee_id date dagdeel service_id employees
        bset := by
  rw [isValidAssignment, isValidAssignment]
  by_cases hbl : inBlocked bset employee_id date dagdeel
  · simp [hbl]
  · simp only [Bool.not_eq_true] at hbl
    simp only [hbl, Bool.false_eq_true, if_false, find_scrub]
    cases employees.find? (fun e => e.employee_id == employee_id) <;> rfl

/-! ### The claims -/

/-- C1 (amended): provided no two fixed assignments share the same
`(worker id, date, day-part)` triple and the worker ids in the worker
list are pairwise distinct, no two Assignments in the roster returned by
`GreedyPlanner.solve` share the same `(worker id, date, day-part)`
triple. -/
theorem claimC1_roster_triples_nodup (timestamp : String)
    (solve_time_seconds : ℚ)
    (requirements : List RosteringRequirement)
    (employees : List EmployeeCapability)
    (fixed_assignments : List FixedAssignment)
    (blocked_slots : List BlockedSlot) (res : RosteringResult)
    (hfix : (fixed_assignments.map ftriple).Nodup)
    (hemp : (employees.map (fun e => e.employee_id)).Nodup)
    (h : solveAt timestamp solve_time_seconds requirements employees
      fixed_assignments blocked_slots = some res) :
    (res.roster.map tripleOf).Nodup := by
  obtain ⟨out, hc, rfl⟩ := solveCore_of_solveAt h
  exact solveCore_nodup hfix hemp hc

/-- C1 counterexample: with two identical fixed assignments for a worker
capable of the service, the returned roster holds two Assignments with
the same `(worker id, date, day-part)` triple, so the claim as stated
(for every input) is false. -/
theorem claimC1_counterexample :
    (solveAt "t" 0 [] [empB] [fixB, fixB] []).map
        (fun r => r.roster.map tripleOf) =
      some [("w2", "2024-01-01", "ochtend"),
        ("w2", "2024-01-01", "ochtend")] ∧
    ¬ ([("w2", "2024-01-01", "ochtend"),
        ("w2", "2024-01-01", "ochtend")] :
        List (String × String × String)).Nodup :=
  ⟨by decide, by decide⟩

/-- Witness for C1 at a concrete input: one fixed assignment, one worker. -/
theorem claimC1_witness :
    ((([fixB] : List FixedAssignment).map ftriple).Nodup ∧
     (([empB] : List EmployeeCapability).map (fun e => e.employee_id)).Nodup ∧
     solveAt "t" 0 [] [empB] [fixB] [] =
       some (buildResult [] [mkLockedAssignment fixB] [] "t" 0)) ∧
    ((buildResult [] [mkLockedAssignment fixB] [] "t" 0).roster.map
      tripleOf).Nodup :=
  ⟨⟨by decide, by decide, rfl⟩,
    claimC1_roster_triples_nodup "t" 0 [] [empB] [fixB] [] _
      (by decide) (by decide) rfl⟩

/-- C2 (amended): provided every requirement's `required_count` is
nonnegative, no fixed assignment targets the same
`(date, day-part, service id)` triple as any requirement, and any two
requirements sharing a triple have equal `required_count`, the number of
Assignments in the final roster matching a requirement's triple never
exceeds that requirement's `required_count`. -/
theorem claimC2_count_bound (timestamp : String) (solve_time_seconds : ℚ)
    (requirements : List RosteringRequirement)
    (employees : List EmployeeCapability)
    (fixed_assignments : List FixedAssignment)
    (blocked_slots : List BlockedSlot) (res : RosteringResult)
    (hreq0 : ∀ r ∈ requirements, 0 ≤ r.required_count)
    (hfixdisj : ∀ f ∈ fixed_assignments, ∀ r ∈ requirements,
      ¬(f.date = r.date ∧ f.dagdeel = r.dagdeel ∧
        f.service_id = r.service_id))
    (hsame : ∀ r ∈ requirements, ∀ r' ∈ requirements,
      r.date = r'.date → r.dagdeel = r'.dagdeel →
      r.service_id = r'.service_id → r.required_count = r'.required_count)
    (h : solveAt timestamp solve_time_seconds requirements employees
      fixed_assignments blocked_slots = some res) :
    ∀ r ∈ requirements,
      (countSlot res.roster r.date r.dagdeel r.service_id : Int) ≤
        r.required_count := by
  obtain ⟨out, hc, rfl⟩ := solveCore_of_solveAt h
  intro r hr
  obtain ⟨roster, counts, hp, h2⟩ := solveCore_cases hc
  have hbase : (countSlot roster r.date r.dagdeel r.service_id : Int) ≤
      r.required_count := by
    obtain ⟨news, hout, hnews⟩ :=
      phase1_shape _ _ _ _ _ (roster, counts) hp
    dsimp only at hout
    have h0 : countSlot roster r.date r.dagdeel r.service_id = 0 := by
      rw [hout]
      refine countSlot_eq_zero ?_
      intro a ha hcon
      obtain ⟨f, hf, _, rfl⟩ := hnews a (by simpa using ha)
      exact hfixdisj f hf r hr
        (by simpa [mkLockedAssignment] using hcon)
    rw [h0]
    exact_mod_cast hreq0 r hr
  refine phase2_fold employees (buildBlockedSet blocked_slots)
    (fun st => (countSlot st.1 r.date r.dagdeel r.service_id : Int) ≤
      r.required_count)
    requirements roster counts [] out ?_ h2 hbase
  intro req hreqmem st out' hP hs
  refine phase2Step_count hP ?_ hs
  intro h1 h2' h3
  exact le_of_eq (hsame req hreqmem r hr h1 h2' h3)

/-- C2 counterexample: two fixed assignments for distinct capable workers
occupy the slot of a requirement with `required_count = 1`; the final
roster holds 2 matching Assignments, exceeding the requirement's
`required_count`, so the claim as stated (for every input) is false. -/
theorem claimC2_counterexample :
    (solveAt "t" 0 [reqA] [empB, empC] [fixB, fixC] []).map
        (fun r => countSlot r.roster "2024-01-01" "ochtend" "s") =
      some 2 ∧
    ¬ ((2 : Int) ≤ reqA.required_count) :=
  ⟨by decide, by decide⟩

/-- Witness for C2 at a concrete input: one requirement, one capable
worker, no fixed assignments. -/
theorem claimC2_witness :
    ((∀ r ∈ [reqA], 0 ≤ r.required_count) ∧
     (∀ f ∈ ([] : List FixedAssignment), ∀ r ∈ [reqA],
       ¬(f.date = r.date ∧ f.dagdeel = r.dagdeel ∧
         f.service_id = r.service_id)) ∧
     (∀ r ∈ [reqA], ∀ r' ∈ [reqA],
       r.date = r'.date → r.dagdeel = r'.dagdeel →
       r.service_id = r'.service_id →
       r.required_count = r'.required_count) ∧
     solveAt "t" 0 [reqA] [empB] [] [] =
       some (buildResult [reqA] [mkGreedyAssignment empB reqA] [] "t" 0)) ∧
    (∀ r ∈ [reqA],
      (countSlot (buildResult [reqA] [mkGreedyAssignment empB reqA] []
          "t" 0).roster r.date r.dagdeel r.service_id : Int) ≤
        r.required_count) :=
  ⟨⟨by decide, by simp, by decide, rfl⟩,
    claimC2_count_bound "t" 0 [reqA] [empB] [] [] _
      (by decide) (by simp) (by decide) rfl⟩

/-- C3: in the Result returned by `GreedyPlanner.solve`, `total_slots`
equals the number of Requirement entries, `assigned_slots` equals
`total_slots` minus the number of bottlenecks, and `coverage_rate` equals
`assigned_slots / total_slots * 100` when `total_slots > 0` and `0`
otherwise. -/
theorem claimC3_metrics (timestamp : String) (solve_time_seconds : ℚ)
    (requirements : List RosteringRequirement)
    (employees : List EmployeeCapability)
    (fixed_assignments : List FixedAssignment)
    (blocked_slots : List BlockedSlot) (res : RosteringResult)
    (h : solveAt timestamp solve_time_seconds requirements employees
      fixed_assignments blocked_slots = some res) :
    res.total_slots = requirements.length ∧
    res.assigned_slots =
      (requirements.length : Int) - (res.bottlenecks.length : Int) ∧
    res.coverage_rate =
      (if 0 < requirements.length then
        (res.assigned_slots : ℚ) / (requirements.length : ℚ) * 100
       else 0) := by
  obtain ⟨out, hc, rfl⟩ := solveCore_of_solveAt h
  have hbg := solveCore_bns hc
  have hfil : out.2.2.filter (fun b => b.shortage == 0) = [] := by
    rw [List.filter_eq_nil_iff]
    intro b hb
    have h1 := (hbg b hb).1
    simp only [beq_iff_eq]
    omega
  refine ⟨rfl, ?_, rfl⟩
  show ((out.2.2.filter (fun b => b.shortage == 0)).length : Int) +
      ((requirements.length : Int) - (out.2.2.length : Int)) =
    (requirements.length : Int) - (out.2.2.length : Int)
  rw [hfil]
  simp

/-- Witness for C3 at the empty input. -/
theorem claimC3_witness :
    solveAt "t" 0 [] [] [] [] = some (buildResult [] [] [] "t" 0) ∧
    ((buildResult [] [] [] "t" 0).total_slots = ([] : List RosteringRequirement).length ∧
     (buildResult [] [] [] "t" 0).assigned_slots =
       (([] : List RosteringRequirement).length : Int) -
         ((buildResult [] [] [] "t" 0).bottlenecks.length : Int) ∧
     (buildResult [] [] [] "t" 0).coverage_rate =
       (if 0 < ([] : List RosteringRequirement).length then
         ((buildResult [] [] [] "t" 0).assigned_slots : ℚ) /
           (([] : List RosteringRequirement).length : ℚ) * 100
        else 0)) :=
  ⟨rfl, claimC3_metrics "t" 0 [] [] [] [] _ rfl⟩

/-- C4: every Bottleneck in the returned Result has strictly positive
shortage equal to `required_count - placed_count`; equivalently its
`placed_count` is strictly below its `required_count`, so a Bottleneck is
never created for a requirement whose slot count already meets or exceeds
`required_count`. -/
theorem claimC4_shortage (timestamp : String) (solve_time_seconds : ℚ)
    (requirements : List RosteringRequirement)
    (employees : List EmployeeCapability)
    (fixed_assignments : List FixedAssignment)
    (blocked_slots : List BlockedSlot) (res : RosteringResult)
    (h : solveAt timestamp solve_time_seconds requirements employees
      fixed_assignments blocked_slots = some res) :
    ∀ b ∈ res.bottlenecks,
      0 < b.shortage ∧ b.shortage = b.required_count - b.placed_count ∧
      b.placed_count < b.required_count := by
  obtain ⟨out, hc, rfl⟩ := solveCore_of_solveAt h
  intro b hb
  obtain ⟨h1, h2, _⟩ := solveCore_bns hc b hb
  exact ⟨h1, h2, by omega⟩

/-- Witness for C4 at a concrete input producing one bottleneck. -/
theorem claimC4_witness :
    solveAt "t" 0 [reqA] [] [] [] =
      some (buildResult [reqA] [] [bnA] "t" 0) ∧
    (∀ b ∈ (buildResult [reqA] [] [bnA] "t" 0).bottlenecks,
      0 < b.shortage ∧ b.shortage = b.required_count - b.placed_count ∧
      b.placed_count < b.required_count) :=
  ⟨rfl, claimC4_shortage "t" 0 [reqA] [] [] [] _ rfl⟩

/-- C5 (amended): every Bottleneck's reason is classified exactly as
`_analyze_bottleneck_reason` does — "No employees capable of this
service" when no worker in the input list is capable of the requirement's
service, "All capable employees are blocked/unavailable" when every
capable worker is in the blocked index for that `(date, day-part)`, and
"Insufficient eligible employees for this slot" otherwise (the messages
start with a capital letter, unlike the claim's quoted strings). -/
theorem claimC5_reason (timestamp : String) (solve_time_seconds : ℚ)
    (requirements : List RosteringRequirement)
    (employees : List EmployeeCapability)
    (fixed_assignments : List FixedAssignment)
    (blocked_slots : List BlockedSlot) (res : RosteringResult)
    (h : solveAt timestamp solve_time_seconds requirements employees
      fixed_assignments blocked_slots = some res) :
    ∀ b ∈ res.bottlenecks,
      b.reason =
        (if (employees.filter (fun e =>
              dictGetBool e.capable_services b.service_id)).isEmpty then
          "No employees capable of this service"
         else if ((employees.filter (fun e =>
              dictGetBool e.capable_services b.service_id)).filter
              (fun e => !(inBlocked (buildBlockedSet blocked_slots)
                e.employee_id b.date b.dagdeel))).isEmpty then
          "All capable employees are blocked/unavailable"
         else "Insufficient eligible employees for this slot") := by
  obtain ⟨out, hc, rfl⟩ := solveCore_of_solveAt h
  intro b hb
  have hr := (solveCore_bns hc b hb).2.2
  rw [hr]
  rfl

/-- C5 counterexample: with no capable worker the produced reason is
"No employees capable of this service" (capital N), not the claim's
"no employees capable of this service", so the claim as stated is
false. -/
theorem claimC5_counterexample :
    (solveAt "t" 0 [reqA] [] [] []).map
        (fun r => r.bottlenecks.map (fun b => b.reason)) =
      some ["No employees capable of this service"] ∧
    "No employees capable of this service" ≠
      "no employees capable of this service" :=
  ⟨by decide, by decide⟩

/-- Witness for C5 at a concrete input producing one bottleneck. -/
theorem claimC5_witness :
    solveAt "t" 0 [reqA] [] [] [] =
      some (buildResult [reqA] [] [bnA] "t" 0) ∧
    (∀ b ∈ (buildResult [reqA] [] [bnA] "t" 0).bottlenecks,
      b.reason =
        (if (([] : List EmployeeCapability).filter (fun e =>
              dictGetBool e.capable_services b.service_id)).isEmpty then
          "No employees capable of this service"
         else if ((([] : List EmployeeCapability).filter (fun e =>
              dictGetBool e.capable_services b.service_id)).filter
              (fun e => !(inBlocked (buildBlockedSet [])
                e.employee_id b.date b.dagdeel))).isEmpty then
          "All capable employees are blocked/unavailable"
         else "Insufficient eligible employees for this slot")) :=
  ⟨rfl, claimC5_reason "t" 0 [reqA] [] [] [] _ rfl⟩

/-- C6 (amended): the Allocator does not mutate `EmployeeCapability`
records — the employee list after a solve invocation is the input list —
and keeps the running per-worker count in the separate `assignment_count`
map, which ends exactly at the number of roster Assignments committed for
each worker id. -/
theorem claimC6_separate_tally (timestamp : String)
    (solve_time_seconds : ℚ)
    (requirements : List RosteringRequirement)
    (employees : List EmployeeCapability)
    (fixed_assignments : List FixedAssignment)
    (blocked_slots : List BlockedSlot)
    (out : List Assignment × Counts × List Bottleneck)
    (h : solveCore requirements employees fixed_assignments blocked_slots =
      some out) :
    (solveFull timestamp solve_time_seconds requirements employees
        fixed_assignments blocked_slots).map Prod.snd = some employees ∧
    ∀ id, getCount out.2.1 id =
      (out.1.filter (fun a => a.employee_id == id)).length := by
  constructor
  · rw [solveFull, solveAt, h]
    rfl
  · exact solveCore_counts h

/-- C6 counterexample: worker "w2" starts with `current_shifts = 0` and
is committed one Assignment, yet after the solve the record still carries
`current_shifts = 0` instead of the `0 + 1` the claim's mutation would
produce, so the claim is false. -/
theorem claimC6_counterexample :
    (solveFull "t" 0 [reqA] [empB] [] []).map (fun p =>
        ((p.1.roster.filter (fun a => a.employee_id == "w2")).length,
          p.2.map (fun e => e.current_shifts))) = some (1, [0]) ∧
    (some ((1 : Nat), [(0 : Int)]) : Option (Nat × List Int)) ≠
      some (1, [0 + 1]) :=
  ⟨by decide, by decide⟩

/-- Witness for C6 at a concrete input: one greedy commit for "w2". -/
theorem claimC6_witness :
    solveCore [reqA] [empB] [] [] =
      some ([mkGreedyAssignment empB reqA], [("w2", 1)], []) ∧
    ((solveFull "t" 0 [reqA] [empB] [] []).map Prod.snd = some [empB] ∧
     ∀ id, getCount ([mkGreedyAssignment empB reqA],
         ([("w2", 1)] : Counts), ([] : List Bottleneck)).2.1 id =
       (([mkGreedyAssignment empB reqA],
         ([("w2", 1)] : Counts), ([] : List Bottleneck)).1.filter
           (fun a => a.employee_id == id)).length) :=
  ⟨by decide, claimC6_separate_tally "t" 0 [reqA] [empB] [] [] _ (by decide)⟩

/-- C7: `GreedyPlanner.solve` is deterministic — the returned Result is a
function of the inputs alone in every field except `timestamp` and
`solve_time_seconds`, so two runs on identical inputs agree on roster,
bottlenecks, coverage_rate, total_slots, assigned_slots and version. -/
theorem claimC7_deterministic (t1 t2 : String) (tau1 tau2 : ℚ)
    (requirements : List RosteringRequirement)
    (employees : List EmployeeCapability)
    (fixed_assignments : List FixedAssignment)
    (blocked_slots : List BlockedSlot) :
    (solveAt t1 tau1 requirements employees fixed_assignments
      blocked_slots).map stripTimes =
    (solveAt t2 tau2 requirements employees fixed_assignments
      blocked_slots).map stripTimes := by
  rw [solveAt, solveAt]
  cases solveCore requirements employees fixed_assignments blocked_slots <;>
    rfl

/-- C8: `GreedyPlanner.solve` never raises — for every combination of
inputs, including empty lists and fixed assignments referencing unknown
worker ids, it returns a Result (`some`), never hitting the `KeyError`
branch of the tally update. -/
theorem claimC8_never_raises (timestamp : String) (solve_time_seconds : ℚ)
    (requirements : List RosteringRequirement)
    (employees : List EmployeeCapability)
    (fixed_assignments : List FixedAssignment)
    (blocked_slots : List BlockedSlot) :
    (solveAt timestamp solve_time_seconds requirements employees
      fixed_assignments blocked_slots).isSome = true := by
  rw [solveAt]
  have hs := solveCore_isSome requirements employees fixed_assignments
    blocked_slots
  cases h : solveCore requirements employees fixed_assignments
      blocked_slots with
  | none => rw [h] at hs; exact absurd hs (by simp)
  | some _ => rfl

/-- C9: neither `_find_eligible_employees` nor `_is_valid_assignment`
consults `available_dates`, `max_shifts_per_week` or `current_shifts` —
scrubbing those fields changes neither function's outcome on any input —
and a worker can be committed on a date absent from their
`available_dates` and beyond their weekly cap, as worker "w1" (no
available dates, cap 0) is here. -/
theorem claimC9_fields_ignored :
    (∀ (date dagdeel service_id team : String)
       (employees : List EmployeeCapability) (roster : List Assignment)
       (bset : List (String × String × String)),
      findEligibleEmployees date dagdeel service_id
          (employees.map scrubPlanningFields) roster bset team =
        (findEligibleEmployees date dagdeel service_id employees roster
          bset team).map scrubPlanningFields) ∧
    (∀ (employee_id date dagdeel service_id : String)
       (employees : List EmployeeCapability)
       (bset : List (String × String × String)),
      isValidAssignment employee_id date dagdeel service_id
          (employees.map scrubPlanningFields) bset =
        isValidAssignment employee_id date dagdeel service_id employees
          bset) ∧
    (solveAt "t" 0 [reqA] [empA] [] []).map
        (fun r => r.roster.map (fun a => (a.employee_id, a.date))) =
      some [("w1", "2024-01-01")] ∧
    "2024-01-01" ∉ empA.available_dates ∧
    empA.max_shifts_per_week < 1 :=
  ⟨findEligible_scrub, isValid_scrub, by decide, by decide, by decide⟩

/-- C10: every Assignment in the returned roster is locked exactly when
its source is "pre-planned" — Phase-1 Assignments are locked with source
"pre-planned" and greedy-phase Assignments are unlocked with source
"greedy". -/
theorem claimC10_locked_iff (timestamp : String) (solve_time_seconds : ℚ)
    (requirements : List RosteringRequirement)
    (employees : List EmployeeCapability)
    (fixed_assignments : List FixedAssignment)
    (blocked_slots : List BlockedSlot) (res : RosteringResult)
    (h : solveAt timestamp solve_time_seconds requirements employees
      fixed_assignments blocked_slots = some res) :
    ∀ a ∈ res.roster, (a.is_locked = true ↔ a.source = "pre-planned") := by
  obtain ⟨out, hc, rfl⟩ := solveCore_of_solveAt h
  exact solveCore_locked hc

/-- Witness for C10 at a concrete input with one locked and one greedy
assignment. -/
theorem claimC10_witness :
    solveAt "t" 0 [reqB] [empB, empC] [fixB] [] =
      some (buildResult [reqB]
        [mkLockedAssignment fixB, mkGreedyAssignment empC reqB] [] "t" 0) ∧
    (∀ a ∈ (buildResult [reqB]
        [mkLockedAssignment fixB, mkGreedyAssignment empC reqB] []
        "t" 0).roster,
      (a.is_locked = true ↔ a.source = "pre-planned")) :=
  ⟨rfl, claimC10_locked_iff "t" 0 [reqB] [empB, empC] [fixB] [] _ rfl⟩
